import Mathlib

/-
  Verification development for the contextra knowledge-graph core.

  Shallow embedding of:
  - backend/graph_components/Node.py          (pydantic Node; `title` is a property alias for `name`)
  - backend/graph_components/Graph.py         (Graph: appendNode, appendEdge, deleteNode,
                                               deleteEdge, find_paths)
  - backend/graph_factory/graph_creation_pipeline/graph_components/Edge.py
                                              (Edge with start/end/weight/description/title;
                                               Graph.py duck-types its edges and reads
                                               edge.weight in find_paths, matching this class)
  - backend/graph_factory/graph_creation_pipeline/integrityCheck.py
                                              (IntegrityCheck.checkDuplicates)
  - backend/demo_graph/graph_generator.py     (AppleGraphGenerator._create_graph_structure,
                                               _find_node_id; its edges are the pydantic
                                               graph_components/Edge.py with importance_score)

  Numbers are modelled as rationals; Python dicts as insertion-ordered association lists;
  the external vector store / embedding service is modelled as an oracle parameter
  (`none` = the try-block raised, `some rs` = the search returned `rs`).
-/

namespace Contextra

/-- Entity record, from backend/graph_components/Node.py (pydantic fields
`name`, `aliases`, `description`, `type`). -/
structure Node where
  name : String
  aliases : List String
  description : String
  type : String
deriving DecidableEq, Repr

/-- `Node.title` is a property returning `self.name` (Node.py lines 21-24). -/
def Node.title (n : Node) : String := n.name

/-- Weighted edge, from
backend/graph_factory/graph_creation_pipeline/graph_components/Edge.py
(fields `start`, `end`, `weight`, `description`, `title`).  `Graph.find_paths`
reads `edge.weight`, matching this shape. -/
structure Edge where
  title : String
  description : String
  start : Node
  «end» : Node
  weight : ℚ
deriving DecidableEq, Repr

/-- Python dict membership `k in d` for an insertion-ordered association list. -/
def dictContains (d : List (String × Node)) (k : String) : Bool :=
  d.any (fun p => p.1 == k)

/-- Python dict lookup `d[k]` (as an `Option`). -/
def dictGet? (d : List (String × Node)) (k : String) : Option Node :=
  (d.find? (fun p => p.1 == k)).map (fun p => p.2)

/-- Python dict assignment `d[k] = v`: overwrite in place if the key exists,
otherwise append (insertion order preserved). -/
def dictInsert (d : List (String × Node)) (k : String) (v : Node) : List (String × Node) :=
  if d.any (fun p => p.1 == k) then
    d.map (fun p => if p.1 == k then (k, v) else p)
  else
    d ++ [(k, v)]

/-- Python `del d[k]` (keys are unique in a dict, so filtering is equivalent). -/
def dictErase (d : List (String × Node)) (k : String) : List (String × Node) :=
  d.filter (fun p => !(p.1 == k))

/-- Python `d.values()` in insertion order. -/
def dictValues (d : List (String × Node)) : List Node :=
  d.map (fun p => p.2)

/-- Graph state, from backend/graph_components/Graph.py: `nodes` (dict keyed by
node title), `edges` (list), `bidirectional` flag.  The optional vector-database
members are external I/O and are modelled at the call sites that use them. -/
structure Graph where
  nodes : List (String × Node)
  edges : List Edge
  bidirectional : Bool
deriving DecidableEq, Repr

/-- `Graph.appendNode` (Graph.py line 75): `self.nodes[node.title] = node`.
The vector-database branch is guarded external I/O and does not touch
`nodes`/`edges`. -/
def Graph.appendNode (g : Graph) (n : Node) : Graph :=
  { g with nodes := dictInsert g.nodes n.title n }

/-- The reverse edge built by `Graph.appendEdge` (Graph.py lines 104-110):
a deep copy of `edge` with `start` and `end` swapped; `title`, `description`
and `weight` are unchanged. -/
def Edge.reverse (e : Edge) : Edge :=
  { e with start := e.«end», «end» := e.start }

/-- `Graph.appendEdge` (Graph.py lines 94-110): unconditionally appends the
edge; if `bidirectional`, also appends the reverse copy.  There is no check
that the endpoints are keys of `nodes` and no error path. -/
def Graph.appendEdge (g : Graph) (e : Edge) : Graph :=
  if g.bidirectional then
    { g with edges := g.edges ++ [e, e.reverse] }
  else
    { g with edges := g.edges ++ [e] }

/-- `Graph.deleteNode` (Graph.py lines 112-147): returns early with `False`
when the title is not a key; otherwise removes the node and every edge
incident to the title, returning `True`.  (The vector-database branch only
performs external I/O.) -/
def Graph.deleteNode (g : Graph) (node_title : String) : Graph × Bool :=
  if !(dictContains g.nodes node_title) then
    (g, false)
  else
    ({ g with
        nodes := dictErase g.nodes node_title,
        edges := g.edges.filter
          (fun e => !(e.start.title == node_title) && !(e.«end».title == node_title)) },
      true)

/-- `Graph.deleteEdge` (Graph.py lines 149-179): filters out the matching
direction (both directions when `bidirectional`); returns whether the edge
list shrank. -/
def Graph.deleteEdge (g : Graph) (start_title end_title : String) : Graph × Bool :=
  let kept :=
    if g.bidirectional then
      g.edges.filter (fun e =>
        !((e.start.title == start_title && e.«end».title == end_title)
          || (e.start.title == end_title && e.«end».title == start_title)))
    else
      g.edges.filter (fun e =>
        !(e.start.title == start_title && e.«end».title == end_title))
  ({ g with edges := kept }, decide (kept.length < g.edges.length))

/-- Python `t in visited` for the DFS visited set (membership is all the
Python code uses of the set). -/
def memStr (t : String) (v : List String) : Bool := v.any (fun x => x == t)

theorem memStr_iff (t : String) (v : List String) : memStr t v = true ↔ t ∈ v := by
  simp [memStr]

theorem length_filter_mono {α : Type} {p q : α → Bool} (h : ∀ x, p x = true → q x = true)
    (l : List α) : (l.filter p).length ≤ (l.filter q).length := by
  induction l with
  | nil => simp
  | cons x xs ih =>
    rcases hp : p x with hpf | hpt
    · rcases hq : q x with hqf | hqt
      · simpa [List.filter_cons, hp, hq] using ih
      · simp [List.filter_cons, hp, hq]
        omega
    · have hq := h x hp
      simp [List.filter_cons, hp, hq]
      omega

theorem length_filter_lt_of_witness {α : Type} {p q : α → Bool} {l : List α} {a : α}
    (hmono : ∀ x, p x = true → q x = true) (ha : a ∈ l)
    (hpa : p a = false) (hqa : q a = true) :
    (l.filter p).length < (l.filter q).length := by
  induction l with
  | nil => cases ha
  | cons x xs ih =>
    rcases List.mem_cons.mp ha with rfl | hx
    · simp only [List.filter_cons, hpa, hqa]
      simp
      have := length_filter_mono hmono xs
      omega
    · have hlt := ih hx
      rcases hp : p x with hpf | hpt
      · rcases hq : q x with hqf | hqt
        · simpa [List.filter_cons, hp, hq] using hlt
        · simp [List.filter_cons, hp, hq]
          omega
      · have hq := hmono x hp
        simp [List.filter_cons, hp, hq]
        omega

/-- The inner `dfs` of `Graph.find_paths` (Graph.py lines 203-220), in
functional form.  The Python closure mutates a shared `path` list and
`visited` set but restores both before returning (`path.pop()` /
`visited.remove`), and appends each completed path and its accumulated weight
to `all_paths` / `path_weights` in discovery order; this function returns that
list of `(weight, path)` pairs, with `visited` the set contents on entry and
`current` the node being visited.  Recursion is over unvisited edge targets,
exactly as in the source (`edge.end.title not in visited`). -/
def Graph.dfs (g : Graph) (target current : String) (visited : List String) (w : ℚ) :
    List (ℚ × List String) :=
  if current == target then
    [(w, [current])]
  else
    ((g.edges.filter (fun e =>
        e.start.title == current && !(memStr e.«end».title (current :: visited)))).attach.map
      (fun ep =>
        (g.dfs target ep.1.«end».title (current :: visited) (w * ep.1.weight)).map
          (fun p => (p.1, current :: p.2)))).flatten
termination_by
  ((g.edges.map (fun e => e.«end».title)).filter
    (fun t => !(memStr t (current :: visited)))).length
decreasing_by
  obtain ⟨hmem, hcond⟩ := List.mem_filter.mp ep.2
  have hcond2 : memStr ep.1.«end».title (current :: visited) = false := by
    rcases h : memStr ep.1.«end».title (current :: visited) with _ | _
    · rfl
    · rw [h] at hcond
      simp at hcond
  have hself : memStr ep.1.«end».title (ep.1.«end».title :: current :: visited) = true :=
    (memStr_iff _ _).mpr (List.mem_cons_self _ _)
  apply length_filter_lt_of_witness
  · intro x hx
    rcases hm : memStr x (current :: visited) with _ | _
    · simp [hm]
    · exfalso
      have hx2 : memStr x (ep.1.«end».title :: current :: visited) = true :=
        (memStr_iff _ _).mpr (List.mem_cons_of_mem _ ((memStr_iff _ _).mp hm))
      rw [hx2] at hx
      simp at hx
  · exact List.mem_map_of_mem (fun e => e.«end».title) hmem
  · simp [hself]
  · simp [hcond2]

/-- Unfolding equation for `Graph.dfs` with the `attach` bookkeeping removed. -/
theorem Graph.dfs_eq (g : Graph) (target current : String) (visited : List String) (w : ℚ) :
    g.dfs target current visited w =
      if current == target then
        [(w, [current])]
      else
        ((g.edges.filter (fun e =>
            e.start.title == current && !(memStr e.«end».title (current :: visited)))).map
          (fun e =>
            (g.dfs target e.«end».title (current :: visited) (w * e.weight)).map
              (fun p => (p.1, current :: p.2)))).flatten := by
  rw [Graph.dfs]
  rcases h : (current == target) with _ | _
  · simp only [h, Bool.false_eq_true, if_false]
    rw [← List.attach_map_coe
      (g.edges.filter (fun e =>
        e.start.title == current && !(memStr e.«end».title (current :: visited))))
      (fun e =>
        (g.dfs target e.«end».title (current :: visited) (w * e.weight)).map
          (fun p => (p.1, current :: p.2)))]
  · simp [h]

theorem Graph.dfs_at_target (g : Graph) (t : String) (v : List String) (w : ℚ) :
    g.dfs t t v w = [(w, [t])] := by
  rw [Graph.dfs_eq]
  simp

/-- Python list comparison `p1 < p2` for lists of strings (lexicographic,
elementwise; a strict prefix is smaller). -/
def listStrLtB : List String → List String → Bool
  | _, [] => false
  | [], _ :: _ => true
  | a :: as, b :: bs => if a < b then true else if a == b then listStrLtB as bs else false

/-- Python tuple comparison `(w1, p1) < (w2, p2)`: first components, then
lexicographic tie-break on the paths. -/
def pairLtB (x y : ℚ × List String) : Bool :=
  if x.1 < y.1 then true else if x.1 == y.1 then listStrLtB x.2 y.2 else false

/-- Stable descending insertion used by `sortDesc`. -/
def insertDesc (x : ℚ × List String) : List (ℚ × List String) → List (ℚ × List String)
  | [] => [x]
  | y :: ys => if pairLtB x y then y :: insertDesc x ys else x :: y :: ys

/-- Python `sorted(pairs, reverse=True)`: stable sort into non-ascending
tuple order. -/
def sortDesc : List (ℚ × List String) → List (ℚ × List String)
  | [] => []
  | x :: xs => insertDesc x (sortDesc xs)

/-- `Graph.find_paths` (Graph.py lines 181-229): empty result when either
endpoint is not a node key; otherwise run the DFS from the start node with
initial accumulated weight `0` (the literal passed at line 223), sort the
`(weight, path)` pairs with `sorted(zip(path_weights, all_paths),
reverse=True)`, project the paths, and truncate to `amount`
(`sorted_paths[: min(amount, len(sorted_paths))]`). -/
def Graph.find_paths (g : Graph) (start_title target_title : String) (amount : Nat) :
    List (List String) :=
  if !(dictContains g.nodes start_title) || !(dictContains g.nodes target_title) then
    []
  else
    ((sortDesc (g.dfs target_title start_title [] 0)).map Prod.snd).take amount

/-- Modelled from the spec (section 4.1, `findPaths`): the accumulated weight
of a path under the multiplicative left-to-right combinator the spec adopts —
the product of the weights of the traversed edges (each hop contributing the
weight of the first matching directed edge), starting from the multiplicative
identity.  This is the spec-side definition used to compare against what the
code computes. -/
def Graph.specPathWeight (g : Graph) : List String → ℚ
  | a :: b :: rest =>
    (((g.edges.find? (fun e => e.start.title == a && e.«end».title == b)).map
      Edge.weight).getD 0) * g.specPathWeight (b :: rest)
  | _ => 1

/-- One entry of the result list of
`graph.vector_store.search_by_embedding` as consumed by
`IntegrityCheck.checkDuplicates`: the metadata name
(`most_similar['metadata']['name']`) and the reported distance
(`most_similar.get('distance')`, possibly absent/None). -/
structure SearchResult where
  name : String
  distance : Option ℚ
deriving DecidableEq, Repr

/-- The info dictionary returned by `IntegrityCheck.checkDuplicates` alongside
`True`: the matched node (`None` possible in the semantic tier, where the
lookup by metadata name can fail), the reported similarity and the reason
string. -/
structure DupInfo where
  node : Option Node
  similarity : ℚ
  reason : String
deriving DecidableEq, Repr

/-- Python `str.lower()` as used by the duplicate checker and the snapshot
generator: character-wise lowercasing.  (This is also exactly how Lean's own
`String.toLower` is defined — `map Char.toLower` — restated here over the
character list so that it evaluates by `rfl`/`decide`.) -/
def strLower (s : String) : String := ⟨s.data.map Char.toLower⟩

/-- The fallback loop of `IntegrityCheck.checkDuplicates` (integrityCheck.py
lines 82-101): one pass over `graph.nodes.values()` in insertion order; for
each existing node first the case-insensitive name comparison (fixed
similarity 0.9), then the case-insensitive alias comparison (fixed similarity
0.8).  (The Python guard `existing_node.aliases` only skips the membership
test on an empty list, which is equivalent to testing membership in the empty
list.) -/
def fallbackScan (candidate_name : String) : List Node → Bool × Option DupInfo
  | [] => (false, none)
  | n :: rest =>
    if strLower candidate_name == strLower n.name then
      (true, some { node := some n, similarity := 9/10, reason := "Case-insensitive name match" })
    else if (n.aliases.map (fun a => strLower a)).contains (strLower candidate_name) then
      (true, some { node := some n, similarity := 4/5, reason := "Name matches alias" })
    else
      fallbackScan candidate_name rest

/-- `IntegrityCheck.checkDuplicates` (integrityCheck.py lines 30-101).

`hasVectorStore` models `hasattr(graph, 'vector_store') and graph.vector_store
is not None`; `oracle` models the try-block's external calls
(`embedding_service.get_node_embedding` followed by
`graph.vector_store.search_by_embedding`): `none` means the block raised and
execution falls through to the fallback tiers, `some rs` means the search
returned the list `rs`.

Tier order as in the source: exact `node.title in graph.nodes` check; early
`return False, None` when no vector store is attached; the vector-similarity
tier with `similarity = 1.0 - (distance if distance is not None else 0)` of
the first result and the inclusive comparison `similarity >=
self.similarity_threshold`; finally the name/alias fallback scan. -/
def checkDuplicates (similarity_threshold : ℚ) (node : Node) (g : Graph)
    (hasVectorStore : Bool) (oracle : Option (List SearchResult)) :
    Bool × Option DupInfo :=
  if dictContains g.nodes node.title then
    (true, some { node := dictGet? g.nodes node.title, similarity := 1,
                  reason := "Exact title match" })
  else if !hasVectorStore then
    (false, none)
  else
    match oracle with
    | none => fallbackScan node.name (dictValues g.nodes)
    | some [] => fallbackScan node.name (dictValues g.nodes)
    | some (most_similar :: _) =>
      let similarity : ℚ := 1 - (most_similar.distance.getD 0)
      if similarity_threshold ≤ similarity then
        (true, some { node := (dictValues g.nodes).find? (fun n => n.name == most_similar.name),
                      similarity := similarity, reason := "Semantic similarity" })
      else
        fallbackScan node.name (dictValues g.nodes)

/-- `IntegrityCheck.checkDuplicates` in state-passing form: the method's
statements only read `node` and `graph` (attribute reads, `in`, `.values()`,
and calls into the external embedding service / vector store, which receive
the graph's store but assign nothing), so the threaded `(node, graph)` state
passes through each tier unchanged and is returned alongside the result. -/
def checkDuplicatesSt (similarity_threshold : ℚ) (st : Node × Graph)
    (hasVectorStore : Bool) (oracle : Option (List SearchResult)) :
    (Bool × Option DupInfo) × (Node × Graph) :=
  if dictContains st.2.nodes st.1.title then
    ((true, some { node := dictGet? st.2.nodes st.1.title, similarity := 1,
                   reason := "Exact title match" }), st)
  else if !hasVectorStore then
    ((false, none), st)
  else
    match oracle with
    | none => (fallbackScan st.1.name (dictValues st.2.nodes), st)
    | some [] => (fallbackScan st.1.name (dictValues st.2.nodes), st)
    | some (most_similar :: _) =>
      let similarity : ℚ := 1 - (most_similar.distance.getD 0)
      if similarity_threshold ≤ similarity then
        ((true, some { node := (dictValues st.2.nodes).find?
                         (fun n => n.name == most_similar.name),
                       similarity := similarity, reason := "Semantic similarity" }), st)
      else
        (fallbackScan st.1.name (dictValues st.2.nodes), st)

/-- Edge record of the demo-graph generator, from
backend/graph_components/Edge.py (pydantic fields `title`, `description`,
`start`, `end`, `importance_score`) — the edge type actually consumed by
`AppleGraphGenerator._create_graph_structure`. -/
structure DemoEdge where
  title : String
  description : String
  start : Node
  «end» : Node
  importance_score : ℚ
deriving DecidableEq, Repr

/-- JSON-like value for the serializable snapshot structure. -/
inductive JVal where
  | jnat : Nat → JVal
  | jnum : ℚ → JVal
  | jstr : String → JVal
  | jstrList : List String → JVal
deriving DecidableEq, Repr

/-- One node record of `_create_graph_structure` (graph_generator.py lines
81-90), keyed exactly as the emitted dictionary. -/
def nodeRecord (i : Nat) (n : Node) : List (String × JVal) :=
  [("id", JVal.jnat i), ("name", JVal.jstr n.name), ("type", JVal.jstr n.type),
   ("description", JVal.jstr n.description), ("aliases", JVal.jstrList n.aliases)]

/-- Whether `_find_node_id` accepts node `n` for the queried name: the
case-insensitive name comparison, then the case-insensitive alias comparison
(both return the same index `i`, so the two checks combine into one
disjunction). -/
def nodeMatches (node_name : String) (n : Node) : Bool :=
  strLower n.name == strLower node_name
    || n.aliases.any (fun a => strLower a == strLower node_name)

def findNodeIdAux (node_name : String) : Nat → List Node → Option Nat
  | _, [] => none
  | i, n :: rest =>
    if nodeMatches node_name n then some i else findNodeIdAux node_name (i + 1) rest

/-- `AppleGraphGenerator._find_node_id` (graph_generator.py lines 132-142):
index of the first node whose name or one of whose aliases equals the queried
name case-insensitively; `None` when no node matches. -/
def findNodeId (nodes : List Node) (node_name : String) : Option Nat :=
  findNodeIdAux node_name 0 nodes

/-- The `nodes` list of `_create_graph_structure` (graph_generator.py lines
81-90): one record per node, ids assigned by enumeration order. -/
def snapshotNodes (nodes : List Node) : List (List (String × JVal)) :=
  nodes.enum.map (fun p => nodeRecord p.1 p.2)

/-- One edge record of `_create_graph_structure` (graph_generator.py lines
100-106), keyed exactly as the emitted dictionary (note the key is
`importance_score`). -/
def edgeRecord (s t : Nat) (e : DemoEdge) : List (String × JVal) :=
  [("source", JVal.jnat s), ("target", JVal.jnat t), ("title", JVal.jstr e.title),
   ("description", JVal.jstr e.description),
   ("importance_score", JVal.jnum e.importance_score)]

/-- The `edges` list of `_create_graph_structure` (graph_generator.py lines
93-107): resolve both endpoint names through `_find_node_id`; emit a record
only when both resolve (`if source_id is not None and target_id is not
None`), otherwise drop the edge. -/
def snapshotEdges (nodes : List Node) (edges : List DemoEdge) :
    List (List (String × JVal)) :=
  edges.filterMap (fun e =>
    match findNodeId nodes e.start.name, findNodeId nodes e.«end».name with
    | some s, some t => some (edgeRecord s t e)
    | _, _ => none)

/-! Concrete fixtures used by counterexamples and witnesses. -/

def nodeA : Node := { name := "A", aliases := [], description := "", type := "Company" }
def nodeB : Node := { name := "B", aliases := [], description := "", type := "Company" }
def edgeAB : Edge :=
  { title := "rel", description := "", start := nodeA, «end» := nodeB, weight := 1 }

/-- A graph with no nodes at all. -/
def gEmpty : Graph := { nodes := [], edges := [], bidirectional := false }

/-- A graph, reachable through the mutation API, whose edge list references
titles that are not node keys (`appendEdge` performs no validation). -/
def gDangling : Graph := gEmpty.appendEdge edgeAB

/-- A one-node graph. -/
def gOne : Graph := { nodes := [("A", nodeA)], edges := [], bidirectional := false }

/-- An empty bidirectional graph. -/
def gBid : Graph := { nodes := [("A", nodeA), ("B", nodeB)], edges := [], bidirectional := true }

/-- Claim C1, counterexample: on the empty graph neither endpoint title of
`edgeAB` is a node key, yet `appendEdge` succeeds and changes the edge list
(the claim asserts the insertion fails with `UnknownEndpoint` and leaves the
edges unchanged). -/
theorem C1_counterexample :
    dictContains gEmpty.nodes "A" = false
      ∧ dictContains gEmpty.nodes "B" = false
      ∧ edgeAB.start.title = "A" ∧ edgeAB.«end».title = "B"
      ∧ (gEmpty.appendEdge edgeAB).edges = [edgeAB] := by
  decide

/-- Claim C1, amended: `appendEdge` performs no endpoint validation and never
fails: for every graph and edge it leaves `nodes` unchanged and appends the
edge (plus the reversed copy when the graph is bidirectional) to `edges`,
even when an endpoint is absent from the node map. -/
theorem C1_appendEdge_no_validation (g : Graph) (e : Edge) :
    (g.appendEdge e).nodes = g.nodes
      ∧ (g.appendEdge e).edges
          = g.edges ++ (if g.bidirectional then [e, e.reverse] else [e]) := by
  rcases hb : g.bidirectional with _ | _ <;> simp [Graph.appendEdge, hb]

/-- Claim C8, counterexample: `gDangling` (built with the public API) has an
edge whose start title `"A"` is not a node key; `deleteNode "A"` returns
`false` and leaves that edge in place, so an edge with start title `"A"`
remains after `deleteNode "A"`. -/
theorem C8_counterexample :
    dictContains gDangling.nodes "A" = false
      ∧ (gDangling.deleteNode "A").2 = false
      ∧ (gDangling.deleteNode "A").1.edges = [edgeAB]
      ∧ edgeAB.start.title = "A" := by
  decide

/-- Claim C8, amended: `deleteNode` returns `true` exactly when the title was
a node key; a `false` return leaves the graph unchanged; and when the title
was a node key, no remaining edge has it as start or end title. -/
theorem C8_deleteNode (g : Graph) (x : String) :
    ((g.deleteNode x).2 = true ↔ dictContains g.nodes x = true)
      ∧ ((g.deleteNode x).2 = false → (g.deleteNode x).1 = g)
      ∧ (dictContains g.nodes x = true →
          ∀ e ∈ (g.deleteNode x).1.edges, e.start.title ≠ x ∧ e.«end».title ≠ x) := by
  rcases hc : dictContains g.nodes x with _ | _
  · simp [Graph.deleteNode, hc]
  · refine ⟨by simp [Graph.deleteNode, hc], by simp [Graph.deleteNode, hc], ?_⟩
    intro _ e he
    have h2 : e ∈ g.edges ∧ ¬ e.start.title = x ∧ ¬ e.«end».title = x := by
      simpa [Graph.deleteNode, hc] using he
    exact ⟨h2.2.1, h2.2.2⟩

/-- Claim C8, witness: on the one-node graph, `deleteNode "A"` reports `true`,
via the amended theorem. -/
theorem C8_witness :
    dictContains gOne.nodes "A" = true ∧ (gOne.deleteNode "A").2 = true :=
  ⟨by decide, (C8_deleteNode gOne "A").1.mpr (by decide)⟩

/-- Mirror-closure invariant for a bidirectional graph's edge list: every edge
has a reverse companion with the same weight and description. -/
def mirrorClosed (es : List Edge) : Prop :=
  ∀ e ∈ es, ∃ e', e' ∈ es
    ∧ e'.start.title = e.«end».title ∧ e'.«end».title = e.start.title
    ∧ e'.weight = e.weight ∧ e'.description = e.description

/-- Claim C5: on a bidirectional graph, `appendEdge` adds the edge together
with its mirror (same weight and description, endpoints swapped);
`deleteEdge a b` leaves no edge in either direction between `a` and `b`; and
the mirror-pair invariant is preserved by both operations. -/
theorem C5_bidirectional_mirror (g : Graph) (e : Edge) (a b : String)
    (hb : g.bidirectional = true) :
    ((g.appendEdge e).edges = g.edges ++ [e, e.reverse]
        ∧ e.reverse.start = e.«end» ∧ e.reverse.«end» = e.start
        ∧ e.reverse.weight = e.weight ∧ e.reverse.description = e.description)
      ∧ (∀ e' ∈ (g.deleteEdge a b).1.edges,
          ¬(e'.start.title = a ∧ e'.«end».title = b)
            ∧ ¬(e'.start.title = b ∧ e'.«end».title = a))
      ∧ (mirrorClosed g.edges → mirrorClosed (g.appendEdge e).edges)
      ∧ (mirrorClosed g.edges → mirrorClosed (g.deleteEdge a b).1.edges) := by
  have happ : (g.appendEdge e).edges = g.edges ++ [e, e.reverse] := by
    simp [Graph.appendEdge, hb]
  have hdel : (g.deleteEdge a b).1.edges
      = g.edges.filter (fun e' =>
          !((e'.start.title == a && e'.«end».title == b)
            || (e'.start.title == b && e'.«end».title == a))) := by
    simp [Graph.deleteEdge, hb]
  refine ⟨⟨happ, rfl, rfl, rfl, rfl⟩, ?_, ?_, ?_⟩
  · intro e' he'
    rw [hdel] at he'
    have h2 : e' ∈ g.edges
        ∧ (¬ e'.start.title = a ∨ ¬ e'.«end».title = b)
        ∧ (¬ e'.start.title = b ∨ ¬ e'.«end».title = a) := by
      simpa using he'
    exact ⟨by tauto, by tauto⟩
  · intro hmc e' he'
    rw [happ] at he'
    rcases List.mem_append.mp he' with hin | hin
    · obtain ⟨m, hm, h1, h2, h3, h4⟩ := hmc e' hin
      exact ⟨m, by rw [happ]; exact List.mem_append_left _ hm, h1, h2, h3, h4⟩
    · rcases List.mem_cons.mp hin with rfl | hin2
      · refine ⟨e'.reverse, ?_, rfl, rfl, rfl, rfl⟩
        rw [happ]
        exact List.mem_append_right _ (by simp)
      · rcases List.mem_cons.mp hin2 with rfl | hfalse
        · refine ⟨e, ?_, rfl, rfl, rfl, rfl⟩
          rw [happ]
          exact List.mem_append_right _ (by simp)
        · cases hfalse
  · intro hmc e' he'
    rw [hdel] at he'
    obtain ⟨hin, hkeep⟩ := List.mem_filter.mp he'
    obtain ⟨m, hm, h1, h2, h3, h4⟩ := hmc e' hin
    refine ⟨m, ?_, h1, h2, h3, h4⟩
    rw [hdel]
    refine List.mem_filter.mpr ⟨hm, ?_⟩
    have hk : (¬ e'.start.title = a ∨ ¬ e'.«end».title = b)
        ∧ (¬ e'.start.title = b ∨ ¬ e'.«end».title = a) := by
      simpa using hkeep
    simp only [h1, h2]
    simp only [Bool.not_eq_true', Bool.or_eq_false_iff, Bool.and_eq_false_iff]
    refine ⟨?_, ?_⟩
    · rcases hk.2 with h | h
      · right
        simpa using h
      · left
        simpa using h
    · rcases hk.1 with h | h
      · right
        simpa using h
      · left
        simpa using h

/-- Claim C5, witness: instantiated on the concrete bidirectional graph
`gBid` and edge `edgeAB`. -/
theorem C5_witness :
    gBid.bidirectional = true
      ∧ (gBid.appendEdge edgeAB).edges = gBid.edges ++ [edgeAB, edgeAB.reverse] :=
  ⟨by decide, (C5_bidirectional_mirror gBid edgeAB "A" "B" (by decide)).1.1⟩

/-! Fixtures for the path-search claims. -/

def nApple : Node := { name := "Apple", aliases := [], description := "", type := "Company" }
def nS1 : Node := { name := "Supplier1", aliases := [], description := "", type := "Company" }
def nS2 : Node := { name := "Supplier2", aliases := [], description := "", type := "Company" }
def eApS1 : Edge :=
  { title := "supplies", description := "", start := nApple, «end» := nS1, weight := 9/10 }
def eS1S2 : Edge :=
  { title := "supplies", description := "", start := nS1, «end» := nS2, weight := 1/2 }

/-- The concrete scenario of the spec: `Apple → Supplier1` with weight `0.9`
and `Supplier1 → Supplier2` with weight `0.5`, non-bidirectional. -/
def gSupply : Graph :=
  { nodes := [("Apple", nApple), ("Supplier1", nS1), ("Supplier2", nS2)],
    edges := [eApS1, eS1S2],
    bidirectional := false }

theorem gSupply_dfs_S1 (w : ℚ) :
    gSupply.dfs "Supplier2" "Supplier1" ["Apple"] w
      = [(w * (1/2), ["Supplier1", "Supplier2"])] := by
  rw [Graph.dfs_eq]
  have he : gSupply.edges = [eApS1, eS1S2] := rfl
  rw [he]
  simp [eApS1, eS1S2, nApple, nS1, nS2, Node.title, memStr, Graph.dfs_at_target]

theorem gSupply_dfs_Apple :
    gSupply.dfs "Supplier2" "Apple" [] 0 = [(0, ["Apple", "Supplier1", "Supplier2"])] := by
  rw [Graph.dfs_eq]
  have he : gSupply.edges = [eApS1, eS1S2] := rfl
  rw [he]
  simp [eApS1, eS1S2, nApple, nS1, nS2, Node.title, memStr, gSupply_dfs_S1]

/-- Claim C3: on the supply-chain scenario the code does return exactly the
path `Apple, Supplier1, Supplier2`, but the weight its DFS accumulates for
that path is `0` (the accumulator is seeded with the literal `0` and then
multiplied), whereas the multiplicative combinator over the traversed edge
weights gives `0.9 * 0.5 = 0.45`. -/
theorem C3_supply_chain_eval :
    gSupply.find_paths "Apple" "Supplier2" 1 = [["Apple", "Supplier1", "Supplier2"]]
      ∧ gSupply.dfs "Supplier2" "Apple" [] 0 = [(0, ["Apple", "Supplier1", "Supplier2"])]
      ∧ gSupply.specPathWeight ["Apple", "Supplier1", "Supplier2"] = 9/20 := by
  refine ⟨?_, gSupply_dfs_Apple, ?_⟩
  · simp only [Graph.find_paths, gSupply_dfs_Apple]
    norm_num [dictContains, gSupply, sortDesc, insertDesc]
  · simp [Graph.specPathWeight, gSupply, eApS1, eS1S2, nApple, nS1, nS2, Node.title,
      List.find?]
    norm_num

/-! Fixtures for the ordering claim: two disjoint routes from `A` to `T`;
the route through `B` has much larger multiplicative weight than the route
through `C`. -/

def nA4 : Node := { name := "A", aliases := [], description := "", type := "Company" }
def nB4 : Node := { name := "B", aliases := [], description := "", type := "Company" }
def nC4 : Node := { name := "C", aliases := [], description := "", type := "Company" }
def nT4 : Node := { name := "T", aliases := [], description := "", type := "Company" }
def eAB4 : Edge := { title := "ab", description := "", start := nA4, «end» := nB4, weight := 9/10 }
def eBT4 : Edge := { title := "bt", description := "", start := nB4, «end» := nT4, weight := 9/10 }
def eAC4 : Edge := { title := "ac", description := "", start := nA4, «end» := nC4, weight := 1/10 }
def eCT4 : Edge := { title := "ct", description := "", start := nC4, «end» := nT4, weight := 1/10 }
def gTwoRoutes : Graph :=
  { nodes := [("A", nA4), ("B", nB4), ("C", nC4), ("T", nT4)],
    edges := [eAB4, eBT4, eAC4, eCT4],
    bidirectional := false }

theorem gTwoRoutes_dfs_B (w : ℚ) :
    gTwoRoutes.dfs "T" "B" ["A"] w = [(w * (9/10), ["B", "T"])] := by
  rw [Graph.dfs_eq]
  have he : gTwoRoutes.edges = [eAB4, eBT4, eAC4, eCT4] := rfl
  rw [he]
  simp [eAB4, eBT4, eAC4, eCT4, nA4, nB4, nC4, nT4, Node.title, memStr, Graph.dfs_at_target]

theorem gTwoRoutes_dfs_C (w : ℚ) :
    gTwoRoutes.dfs "T" "C" ["A"] w = [(w * (1/10), ["C", "T"])] := by
  rw [Graph.dfs_eq]
  have he : gTwoRoutes.edges = [eAB4, eBT4, eAC4, eCT4] := rfl
  rw [he]
  simp [eAB4, eBT4, eAC4, eCT4, nA4, nB4, nC4, nT4, Node.title, memStr, Graph.dfs_at_target]

theorem gTwoRoutes_dfs_A :
    gTwoRoutes.dfs "T" "A" [] 0 = [(0, ["A", "B", "T"]), (0, ["A", "C", "T"])] := by
  rw [Graph.dfs_eq]
  have he : gTwoRoutes.edges = [eAB4, eBT4, eAC4, eCT4] := rfl
  rw [he]
  simp [eAB4, eBT4, eAC4, eCT4, nA4, nB4, nC4, nT4, Node.title, memStr, gTwoRoutes_dfs_B,
    gTwoRoutes_dfs_C]

/-- Claim C4: the returned list is not ordered by non-increasing accumulated
path weight.  Because every weight the DFS stores is `0` (zero seed), the
sort falls back to descending lexicographic comparison of the paths, and the
code returns the path through `C` (multiplicative weight `0.01`) before the
path through `B` (multiplicative weight `0.81`). -/
theorem C4_ordering_eval :
    gTwoRoutes.find_paths "A" "T" 5 = [["A", "C", "T"], ["A", "B", "T"]]
      ∧ gTwoRoutes.specPathWeight ["A", "C", "T"]
          < gTwoRoutes.specPathWeight ["A", "B", "T"] := by
  constructor
  · simp only [Graph.find_paths, gTwoRoutes_dfs_A]
    norm_num [dictContains, gTwoRoutes, sortDesc, insertDesc, pairLtB, listStrLtB]
    decide
  · simp [Graph.specPathWeight, gTwoRoutes, eAB4, eBT4, eAC4, eCT4, nA4, nB4, nC4, nT4,
      Node.title, List.find?]
    norm_num

theorem dictGet?_insert_self (d : List (String × Node)) (k : String) (v : Node) :
    dictGet? (dictInsert d k v) k = some v := by
  unfold dictInsert
  rcases h : d.any (fun p => p.1 == k) with _ | _
  · simp only [Bool.false_eq_true, if_false]
    induction d with
    | nil => simp [dictGet?]
    | cons a tl ih =>
      have h2 : (a.1 == k) = false ∧ tl.any (fun p => p.1 == k) = false := by
        rcases h3 : (a.1 == k) with _ | _
        · refine ⟨rfl, ?_⟩
          rcases h4 : tl.any (fun p => p.1 == k) with _ | _
          · rfl
          · rw [List.any_cons, h3, h4] at h
            simp at h
        · rw [List.any_cons, h3] at h
          simp at h
      simp only [List.cons_append, dictGet?, List.find?, h2.1]
      exact ih h2.2
  · simp only [if_true]
    induction d with
    | nil => simp at h
    | cons a tl ih =>
      rcases h3 : (a.1 == k) with _ | _
      · have h4 : tl.any (fun p => p.1 == k) = true := by
          rw [List.any_cons, h3] at h
          simpa using h
        simp only [List.map_cons, h3, Bool.false_eq_true, if_false, dictGet?, List.find?]
        simpa [dictGet?] using ih h4
      · simp only [List.map_cons, h3, if_true, dictGet?, List.find?]
        simp

theorem dictContains_eq_isSome (d : List (String × Node)) (k : String) :
    dictContains d k = (dictGet? d k).isSome := by
  induction d with
  | nil => simp [dictContains, dictGet?]
  | cons a tl ih =>
    rcases h : (a.1 == k) with _ | _
    · simpa [dictContains, dictGet?, List.any_cons, List.find?, h] using ih
    · simp [dictContains, dictGet?, List.any_cons, List.find?, h]

theorem dictContains_insert_self (d : List (String × Node)) (k : String) (v : Node) :
    dictContains (dictInsert d k v) k = true := by
  rw [dictContains_eq_isSome, dictGet?_insert_self]
  rfl

/-- Claim C7: whenever the candidate's name is a node key, `checkDuplicates`
returns the exact-match result — duplicate, similarity `1.0`, the exact-match
reason (the literal string in the source is `"Exact title match"`, with
`title` the alias of `name`) — for every oracle behaviour and whether or not
a vector store is attached, so the exact tier short-circuits every other
tier; in particular inserting a node and immediately re-checking it always
yields this result. -/
theorem C7_exact_tier (θ : ℚ) (node : Node) (g : Graph) (hasVS : Bool)
    (oracle : Option (List SearchResult)) (h : dictContains g.nodes node.title = true) :
    checkDuplicates θ node g hasVS oracle
        = (true, some { node := dictGet? g.nodes node.title, similarity := 1,
                        reason := "Exact title match" })
      ∧ checkDuplicates θ node (g.appendNode node) hasVS oracle
          = (true, some { node := some node, similarity := 1,
                          reason := "Exact title match" }) := by
  constructor
  · simp [checkDuplicates, h]
  · have hc : dictContains (g.appendNode node).nodes node.title = true := by
      simpa [Graph.appendNode] using dictContains_insert_self g.nodes node.title node
    have hg : dictGet? (g.appendNode node).nodes node.title = some node := by
      simpa [Graph.appendNode] using dictGet?_insert_self g.nodes node.title node
    simp [checkDuplicates, hc, hg]

/-- Claim C7, witness: on the one-node graph, checking a candidate named
`"A"` yields the exact-match result. -/
theorem C7_witness :
    dictContains gOne.nodes nodeA.title = true
      ∧ checkDuplicates (17/20) nodeA gOne true none
          = (true, some { node := dictGet? gOne.nodes nodeA.title, similarity := 1,
                          reason := "Exact title match" }) :=
  ⟨by decide, (C7_exact_tier (17/20) nodeA gOne true none (by decide)).1⟩

/-- Claim C6: in the vector tier (no exact-key hit, store attached, nonempty
search result with a reported distance `d`), similarity is computed as
`1 - d`; the decision boundary is inclusive — similarity `≥` threshold is
reported as a semantic-similarity duplicate, while similarity strictly below
the threshold leaves the decision to the fallback scan. -/
theorem C6_vector_tier (θ : ℚ) (node : Node) (g : Graph) (d : ℚ) (r : SearchResult)
    (rest : List SearchResult) (h1 : dictContains g.nodes node.title = false)
    (h2 : r.distance = some d) :
    (θ ≤ 1 - d →
        checkDuplicates θ node g true (some (r :: rest))
          = (true, some { node := (dictValues g.nodes).find? (fun n => n.name == r.name),
                          similarity := 1 - d, reason := "Semantic similarity" }))
      ∧ (1 - d < θ →
          checkDuplicates θ node g true (some (r :: rest))
            = fallbackScan node.name (dictValues g.nodes)) := by
  constructor
  · intro hle
    simp [checkDuplicates, h1, h2, hle]
  · intro hlt
    have hn : ¬ (θ ≤ 1 - d) := not_le.mpr hlt
    simp [checkDuplicates, h1, h2, hn]

def rBoundary : SearchResult := { name := "A", distance := some (3/20) }

/-- Claim C6, witness: with threshold `0.85` and distance `0.15` the computed
similarity is exactly `0.85` and the candidate is classified as a duplicate
(inclusive boundary). -/
theorem C6_witness :
    dictContains gOne.nodes nodeB.title = false
      ∧ rBoundary.distance = some (3/20)
      ∧ (17/20 : ℚ) ≤ 1 - 3/20
      ∧ checkDuplicates (17/20) nodeB gOne true (some [rBoundary])
          = (true, some { node := (dictValues gOne.nodes).find?
                            (fun n => n.name == rBoundary.name),
                          similarity := 1 - 3/20, reason := "Semantic similarity" }) :=
  ⟨by decide, rfl, by norm_num,
    (C6_vector_tier (17/20) nodeB gOne (3/20) rBoundary [] (by decide) rfl).1 (by norm_num)⟩

/-! Fixtures for the Microsoft alias scenario. -/

def msCorp : Node :=
  { name := "Microsoft Corporation", aliases := ["Microsoft"],
    description := "A multinational technology company.", type := "Company" }
def msCand : Node :=
  { name := "Microsoft", aliases := [],
    description := "A multinational technology company.", type := "Organization" }
def gMs : Graph :=
  { nodes := [("Microsoft Corporation", msCorp)], edges := [], bidirectional := false }

/-- Claim C2, counterexample: the candidate `"Microsoft"` matches an alias of
the existing `"Microsoft Corporation"` node case-insensitively, yet with no
vector store attached `checkDuplicates` returns `(false, none)` — the
fallback tiers are never reached (the claim asserts a duplicate with the
alias reason). -/
theorem C2_counterexample :
    ((msCorp.aliases.map (fun a => strLower a)).contains (strLower msCand.name)) = true
      ∧ dictContains gMs.nodes msCand.title = false
      ∧ checkDuplicates (17/20) msCand gMs false none = (false, none) := by
  refine ⟨by decide, by decide, rfl⟩

/-- Claim C2, amended: when no similarity index is attached (and the
candidate's name is not a node key), `checkDuplicates` returns
`(false, none)` immediately, skipping the fallback tiers; the fallback tiers
run only when a store is attached but the vector tier raises (or does not
decide) — in that case the Microsoft candidate is reported as a duplicate
with reason `"Name matches alias"` and similarity `0.8`. -/
theorem C2_no_index_skips_fallback (θ : ℚ) (node : Node) (g : Graph)
    (oracle : Option (List SearchResult)) (h : dictContains g.nodes node.title = false) :
    checkDuplicates θ node g false oracle = (false, none)
      ∧ checkDuplicates θ node g true none = fallbackScan node.name (dictValues g.nodes)
      ∧ checkDuplicates (17/20) msCand gMs true none
          = (true, some { node := some msCorp, similarity := 4/5,
                          reason := "Name matches alias" }) := by
  refine ⟨by simp [checkDuplicates, h], by simp [checkDuplicates, h], rfl⟩

/-- Claim C2, witness for the amended theorem, at the Microsoft scenario. -/
theorem C2_witness :
    dictContains gMs.nodes msCand.title = false
      ∧ checkDuplicates (17/20) msCand gMs false none = (false, none) :=
  ⟨by decide, (C2_no_index_skips_fallback (17/20) msCand gMs none (by decide)).1⟩

/-- Claim C10: `checkDuplicates` does not mutate its inputs — the
state-passing translation returns the `(node, graph)` state unchanged (and
the same decision as the pure function) for every threshold, store
configuration and oracle behaviour, i.e. regardless of which tier decides
and whether the vector tier succeeds, fails, or is absent. -/
theorem C10_check_duplicates_frame (θ : ℚ) (st : Node × Graph) (hasVS : Bool)
    (oracle : Option (List SearchResult)) :
    (checkDuplicatesSt θ st hasVS oracle).2 = st
      ∧ (checkDuplicatesSt θ st hasVS oracle).1
          = checkDuplicates θ st.1 st.2 hasVS oracle := by
  rcases oracle with _ | (_ | ⟨r, rs⟩) <;>
    simp only [checkDuplicatesSt, checkDuplicates] <;>
    split_ifs <;>
    simp

theorem findNodeIdAux_spec (name : String) :
    ∀ (l : List Node) (k s : Nat), findNodeIdAux name k l = some s →
      k ≤ s
        ∧ (∃ n, l.get? (s - k) = some n ∧ nodeMatches name n = true)
        ∧ (∀ j n, j < s - k → l.get? j = some n → nodeMatches name n = false) := by
  intro l
  induction l with
  | nil => intro k s h; simp [findNodeIdAux] at h
  | cons n tl ih =>
    intro k s h
    rcases hm : nodeMatches name n with _ | _
    · rw [findNodeIdAux, hm] at h
      simp only [Bool.false_eq_true, if_false] at h
      obtain ⟨hks, ⟨m, hget, hmatch⟩, hmin⟩ := ih (k + 1) s h
      refine ⟨by omega, ⟨m, ?_, hmatch⟩, ?_⟩
      · have hsk : s - k = (s - (k + 1)) + 1 := by omega
        rw [hsk]
        simpa using hget
      · intro j nj hj hgj
        rcases j with _ | j'
        · simp at hgj
          rw [← hgj]
          exact hm
        · have hj' : j' < s - (k + 1) := by omega
          exact hmin j' nj hj' (by simpa using hgj)
    · rw [findNodeIdAux, hm] at h
      simp only [if_true, Option.some.injEq] at h
      subst h
      refine ⟨le_refl _, ⟨n, ?_, hm⟩, ?_⟩
      · simp
      · intro j nj hj
        omega

theorem enumFrom_get?' {α : Type} :
    ∀ (l : List α) (k i : Nat), (List.enumFrom k l).get? i = (l.get? i).map (fun a => (k + i, a)) := by
  intro l
  induction l with
  | nil => intro k i; simp
  | cons x xs ih =>
    intro k i
    rcases i with _ | i'
    · simp
    · have hk : k + 1 + i' = k + (i' + 1) := by omega
      have h2 := ih (k + 1) i'
      rw [hk] at h2
      simpa [List.enumFrom] using h2

/-- Claim C9, amended: the snapshot's nodes list has one record per node in
enumeration order (node `i` gets `id = i` and fields name/type/description/
aliases); each emitted edge record comes from an edge whose two endpoint
names both resolve through `_find_node_id` and carries keys `source`,
`target`, `title`, `description` and `importance_score` (not `weight`), the
ids being those returned by the lookup; and `_find_node_id` returns the index
of the first node whose name or alias matches the queried name
case-insensitively. -/
theorem C9_snapshot (nodes : List Node) (edges : List DemoEdge) :
    (snapshotNodes nodes).length = nodes.length
      ∧ (∀ i n, nodes.get? i = some n → (snapshotNodes nodes).get? i = some (nodeRecord i n))
      ∧ (∀ r ∈ snapshotEdges nodes edges, ∃ e, e ∈ edges ∧ ∃ s t,
            findNodeId nodes e.start.name = some s
              ∧ findNodeId nodes e.«end».name = some t
              ∧ r = edgeRecord s t e)
      ∧ (∀ name s, findNodeId nodes name = some s →
            (∃ n, nodes.get? s = some n ∧ nodeMatches name n = true)
              ∧ (∀ j n, j < s → nodes.get? j = some n → nodeMatches name n = false)) := by
  refine ⟨by simp [snapshotNodes], ?_, ?_, ?_⟩
  · intro i n hin
    unfold snapshotNodes
    rw [List.get?_map, List.enum, enumFrom_get?', hin]
    simp
  · intro r hr
    obtain ⟨e, he, hfe⟩ := List.mem_filterMap.mp hr
    refine ⟨e, he, ?_⟩
    rcases h1 : findNodeId nodes e.start.name with _ | s
    · rw [h1] at hfe
      simp at hfe
    · rcases h2 : findNodeId nodes e.«end».name with _ | t
      · rw [h1, h2] at hfe
        simp at hfe
      · rw [h1, h2] at hfe
        simp only [Option.some.injEq] at hfe
        exact ⟨s, t, rfl, rfl, hfe.symm⟩
  · intro name s h
    obtain ⟨-, hex, hmin⟩ := findNodeIdAux_spec name nodes 0 s h
    refine ⟨by simpa using hex, ?_⟩
    intro j n hj hgj
    exact hmin j n (by omega) hgj

def snAlpha : Node :=
  { name := "Alpha", aliases := ["Beta"], description := "first", type := "Company" }
def snBeta : Node :=
  { name := "Beta", aliases := [], description := "second", type := "Company" }
def snEdge : DemoEdge :=
  { title := "rel", description := "d", start := snBeta, «end» := snBeta,
    importance_score := 1 }
def snNodes : List Node := [snAlpha, snBeta]

/-- Claim C9, counterexample: the emitted edge record's keys are `source`,
`target`, `title`, `description`, `importance_score` — there is no `weight`
key — and both `source` and `target` are `0`, the index of the first
alias-matching node, although the edge's actual endpoint node (`snBeta`) has
id `1`. -/
theorem C9_counterexample :
    snapshotEdges snNodes [snEdge]
        = [[("source", JVal.jnat 0), ("target", JVal.jnat 0), ("title", JVal.jstr "rel"),
            ("description", JVal.jstr "d"), ("importance_score", JVal.jnum 1)]]
      ∧ (((snapshotEdges snNodes [snEdge]).headD []).map Prod.fst).contains "weight" = false
      ∧ snNodes.get? 1 = some snEdge.start
      ∧ ¬ (snNodes.get? 0 = some snEdge.start) := by
  refine ⟨rfl, by decide, by decide, by decide⟩

/-- Claim C9, witness for the amended theorem: applied to the two-node
fixture; the emitted record for `snEdge` is the `importance_score`-keyed
record with both endpoint ids resolved to `0`. -/
theorem C9_witness :
    (snapshotNodes snNodes).length = snNodes.length :=
  (C9_snapshot snNodes [snEdge]).1

end Contextra
